import Mathlib

/-!
Shallow embedding of the enterSelects controller (src/lib/main.js):
keyword classifier (`isKeyword` over the `cachedKeywords` map),
input classifier (`willHandle`), typed-text extraction (`getTyped`),
the `_appendCurrentResult` wrapper, and the `keydown` handler with its
deferred actions.  External collaborators (Services.search,
PlacesUtils.keywords, Services.io.newURI, Services.eTLD) are modeled as
fixed oracle functions bundled in `Env`.
-/

namespace EnterSelects

/-- Whitespace characters as matched by the JS regular expression class
used in main.js (split on whitespace, String.trim). -/
def isWsChar (c : Char) : Bool :=
  c = ' ' || c = '\t' || c = '\n' || c = '\r' || c = '\x0b' || c = '\x0c'

/-- JS String.trim: drop whitespace from both ends. -/
def jsTrim (s : String) : String :=
  ⟨((s.data.dropWhile isWsChar).reverse.dropWhile isWsChar).reverse⟩

/-- Test used by willHandle: search.match of a single-space pattern is
non-null, i.e. the string contains a literal space character. -/
def hasSpace (s : String) : Bool :=
  s.data.any (fun c => c = ' ')

/-- Whether the string contains any whitespace character. -/
def hasWs (s : String) : Bool :=
  s.data.any isWsChar

/-- First element of JS split on runs of whitespace: the maximal leading
run of non-whitespace characters (empty when the string starts with
whitespace or is empty, matching JS). -/
def firstToken (s : String) : String :=
  ⟨s.data.takeWhile (fun c => !(isWsChar c))⟩

/-- JS value.slice(0, n): the first n characters. -/
def jsSlice0 (n : Nat) (s : String) : String :=
  ⟨s.data.take n⟩

/-- Fixed oracle functions for the opaque collaborators of main.js:
Services.search.getEngineByAlias (non-null test), PlacesUtils.keywords
fetch result (non-null test; also the contents of moz_keywords used by
the pre-fetch), Services.io.newURI success, and
Services.eTLD.getBaseDomainFromHost success.  statusSearching models the
constant controller.STATUS_SEARCHING. -/
structure Env where
  engineAlias : String → Bool
  bookmarkKeyword : String → Bool
  newURIOk : String → Bool
  baseDomainOk : String → Bool
  statusSearching : Int

/-- State of the keyword classifier: the `cachedKeywords` map (association
list, most recent write first, matching Map.set overwrite semantics under
first-match lookup) plus the multiset of outstanding asynchronous
PlacesUtils.keywords.fetch calls. -/
structure KwState where
  cache : List (String × Bool)
  pending : List String
deriving DecidableEq

/-- The empty classifier state at startup. -/
def kwInit : KwState := ⟨[], []⟩

/-- Map.get with Map.has semantics on the association list. -/
def lookupCache : List (String × Bool) → String → Option Bool
  | [], _ => none
  | (k, b) :: rest, t => if k = t then some b else lookupCache rest t

/-- isKeyword from main.js: answer from the cache if present; otherwise a
synchronous search-engine alias check (cached when it hits); otherwise
start an asynchronous bookmark-keyword fetch and return false
immediately.  Returns the boolean result and the updated state. -/
def isKeyword (env : Env) (st : KwState) (keyword : String) : Bool × KwState :=
  match lookupCache st.cache keyword with
  | some b => (b, st)
  | none =>
    if env.engineAlias keyword then
      (true, ⟨(keyword, true) :: st.cache, st.pending⟩)
    else
      (false, ⟨st.cache, keyword :: st.pending⟩)

/-- willHandle from main.js: with no literal space in the input, a
successful URI parse or base-domain extraction short-circuits to true;
otherwise the first whitespace-separated token is checked as a keyword. -/
def willHandle (env : Env) (st : KwState) (search : String) : Bool × KwState :=
  if hasSpace search = false then
    if env.newURIOk search then (true, st)
    else if env.baseDomainOk search then (true, st)
    else isKeyword env st (firstToken search)
  else isKeyword env st (firstToken search)

/-- The text field (gURLBar): value, selectionStart, selectionEnd. -/
structure Field where
  value : String
  selStart : Nat
  selEnd : Nat
deriving DecidableEq

/-- getTyped from main.js: when selectionEnd sits at the end of the value
(the inline-completion case), keep only the part before selectionStart;
otherwise keep the whole value; trim whitespace either way. -/
def getTyped (f : Field) : String :=
  jsTrim (if f.selEnd = f.value.length then jsSlice0 f.selStart f.value else f.value)

/-- Milliseconds to wait for results after pressing enter (main.js). -/
def MAX_WAIT_FOR_RESULTS : ℚ := 350

/-- JS division of a positive constant by a non-negative integer, with
division by zero producing Infinity (modeled as the top element). -/
def jsDiv (a : ℚ) (b : Nat) : WithTop ℚ :=
  if b = 0 then ⊤ else ((a / (b : ℚ) : ℚ) : WithTop ℚ)

/-- Delay passed to defer for the bounded Enter wait:
MAX_WAIT_FOR_RESULTS / enteredSearch.length. -/
def enterWaitDelay (enteredSearch : String) : WithTop ℚ :=
  jsDiv MAX_WAIT_FOR_RESULTS enteredSearch.length

/-- Fixed first real suggestion position: position 0 is the default
search result, so the controller selects position 1 (main.js). -/
def targetIndex : Int := 1

/-- Per-window mutable controller state captured by the closures of
main.js: popup.selectedIndex together with selectNext, origSearch and
origValue, plus the shared keyword-classifier state. -/
structure CtrlSt where
  selectedIndex : Int
  origSearch : String
  origValue : String
  selectNext : Bool
  kst : KwState
deriving DecidableEq

/-- Initial value of origSearch (main.js line 56). -/
def origSearchInit : String := ""

/-- Initial value of origValue (main.js line 57). -/
def origValueInit : String := ""

/-- Body of the _appendCurrentResult wrapper, run after the original
routine has appended its entry: matchCount is popup._matchCount at that
moment.  Returns the updated controller state and whether a deferred
handleEnter was scheduled (the consumption of a suppressed Enter). -/
def appendCurrentResult (env : Env) (f : Field) (matchCount : Nat)
    (st : CtrlSt) : CtrlSt × Bool :=
  if targetIndex ≤ st.selectedIndex then (st, false)
  else if matchCount = 0 then (st, false)
  else
    let currentSearch := getTyped f
    let r := willHandle env st.kst currentSearch
    if r.1 then ({ st with kst := r.2 }, false)
    else
      ({ selectedIndex := targetIndex, origSearch := currentSearch,
         origValue := f.value, selectNext := false, kst := r.2 },
       st.selectNext)

/-- A sequence of results-appended events, each carrying the match count
observed after the original append routine ran. -/
def runAppends (env : Env) (f : Field) : List Nat → CtrlSt → CtrlSt
  | [], st => st
  | mc :: rest, st => runAppends env f rest (appendCurrentResult env f mc st).1

/-- Keys distinguished by the keydown switch of main.js. -/
inductive Key where
  | left | right | home | up | down | pageUp | pageDown | tab | enter | other
deriving DecidableEq

/-- Modifier keys on a keydown event. -/
structure Mods where
  shift : Bool
  ctrl : Bool
  meta : Bool
deriving DecidableEq

/-- Deferred action scheduled by the keydown handler: either the
vertical-movement restore check, or the bounded Enter-wait timeout
carrying the captured enteredSearch and the computed delay. -/
inductive DeferredAction where
  | none
  | restoreCheck
  | enterTimeout (enteredSearch : String) (delay : WithTop ℚ)

/-- Result of one keydown handler invocation: the selection index after
the handler body, the updated selectNext flag and classifier state,
whether preventDefault was called, the deferred action scheduled, and
whether handleKeyNavigation(DOWN) was issued. -/
structure KeyOut where
  selectedIndex : Int
  selectNext : Bool
  kst : KwState
  preventDefault : Bool
  deferred : DeferredAction
  navDown : Bool

/-- The keydown listener of main.js.  selectedIndex, matchCount and
searchStatus are the values read from the popup and controller when the
event fires; selectNext and kst are the mutable closure state. -/
def keydown (env : Env) (f : Field) (selectedIndex : Int) (matchCount : Nat)
    (searchStatus : Int) (selectNext : Bool) (kst : KwState)
    (key : Key) (mods : Mods) : KeyOut :=
  match key with
  | .left | .right | .home =>
      ⟨-1, selectNext, kst, false, .none, false⟩
  | .up | .down | .pageUp | .pageDown | .tab =>
      ⟨selectedIndex, selectNext, kst, false, .restoreCheck, false⟩
  | .enter =>
      if mods.shift || mods.ctrl || mods.meta then
        ⟨selectedIndex, selectNext, kst, false, .none, false⟩
      else if matchCount = 0 ∧ searchStatus ≤ env.statusSearching then
        if (willHandle env kst (getTyped f)).1 then
          ⟨selectedIndex, selectNext, (willHandle env kst (getTyped f)).2,
           false, .none, false⟩
        else
          ⟨selectedIndex, true, (willHandle env kst (getTyped f)).2,
           true, .enterTimeout (getTyped f) (enterWaitDelay (getTyped f)), false⟩
      else if selectedIndex = targetIndex then
        ⟨targetIndex - 1, selectNext, kst, false, .none, true⟩
      else
        ⟨selectedIndex, selectNext, kst, false, .none, false⟩
  | .other => ⟨selectedIndex, selectNext, kst, false, .none, false⟩

/-- Fire-time body of the deferred check scheduled on vertical-movement
keys: with nothing selected and the popup still open, restore the field
value and caret from the snapshot; otherwise leave the field alone. -/
def verticalRestore (fireSelectedIndex : Int) (popupOpen : Bool)
    (origSearch origValue : String) (f : Field) : Field :=
  if fireSelectedIndex = -1 ∧ popupOpen = true then
    { f with value := origValue, selStart := origSearch.length }
  else f

/-- Fire-time body of the bounded Enter-wait timeout: when the typed
text is unchanged and there are still no matches, clear selectNext and
force the commit (gURLBar.onTextEntered); otherwise do nothing.
Returns whether the forced commit ran and the selectNext flag after. -/
def enterDeferredCheck (enteredSearch : String) (fireField : Field)
    (fireMatchCount : Nat) (selectNext : Bool) : Bool × Bool :=
  if enteredSearch = getTyped fireField ∧ fireMatchCount = 0 then
    (true, false)
  else (false, selectNext)

/-- One event touching the shared keyword-classifier state: an
isKeyword call (from any window), the resolution of one outstanding
asynchronous fetch (writing whether the backend knows the token), or one
row of the startup pre-fetch of existing bookmark keywords (which only
produces tokens the backend knows). -/
inductive KwStep (env : Env) : KwState → KwState → Prop
  | call (t : String) (st : KwState) :
      KwStep env st (isKeyword env st t).2
  | resolve (t : String) (st : KwState) (h : t ∈ st.pending) :
      KwStep env st ⟨(t, env.bookmarkKeyword t) :: st.cache, st.pending.erase t⟩
  | prewarm (t : String) (st : KwState) (h : env.bookmarkKeyword t = true) :
      KwStep env st ⟨(t, true) :: st.cache, st.pending⟩

/-- States of the keyword classifier reachable from startup. -/
def KwReach (env : Env) (st : KwState) : Prop :=
  Relation.ReflTransGen (KwStep env) kwInit st

/-- Inductive invariant of the classifier state: every cached value
agrees with the fixed oracles, and a fetch is only outstanding for
tokens that are not search-engine aliases. -/
def KwInv (env : Env) (st : KwState) : Prop :=
  (∀ t b, lookupCache st.cache t = some b →
     b = (env.engineAlias t || env.bookmarkKeyword t)) ∧
  (∀ t ∈ st.pending, env.engineAlias t = false)

lemma kwInv_init (env : Env) : KwInv env kwInit := by
  constructor
  · intro t b h
    simp [kwInit, lookupCache] at h
  · intro t h
    simp [kwInit] at h

lemma lookupCache_cons_self (k : String) (b : Bool) (c : List (String × Bool)) :
    lookupCache ((k, b) :: c) k = some b := by
  simp [lookupCache]

lemma lookupCache_cons_ne (k : String) (b : Bool) (c : List (String × Bool))
    (t : String) (h : k ≠ t) :
    lookupCache ((k, b) :: c) t = lookupCache c t := by
  simp [lookupCache, h]

lemma kwInv_step (env : Env) (st st2 : KwState) (hinv : KwInv env st)
    (hstep : KwStep env st st2) : KwInv env st2 := by
  obtain ⟨hc, hp⟩ := hinv
  cases hstep with
  | call t st =>
    unfold isKeyword
    cases hl : lookupCache st.cache t with
    | some b => exact ⟨hc, hp⟩
    | none =>
      by_cases ha : env.engineAlias t
      · simp only [hl, ha, if_pos]
        refine ⟨?_, hp⟩
        intro u b hu
        by_cases het : t = u
        · subst het
          rw [lookupCache_cons_self] at hu
          injection hu with hb
          simp [← hb, ha]
        · rw [lookupCache_cons_ne t true st.cache u het] at hu
          exact hc u b hu
      · simp only [hl, ha, if_neg, Bool.false_eq_true, if_false]
        refine ⟨hc, ?_⟩
        intro u hu
        rcases List.mem_cons.mp hu with h1 | h1
        · subst h1
          exact Bool.eq_false_iff.mpr ha
        · exact hp u h1
  | resolve t st h =>
    refine ⟨?_, ?_⟩
    · intro u b hu
      by_cases het : t = u
      · subst het
        rw [lookupCache_cons_self] at hu
        injection hu with hb
        rw [← hb, hp t h]
        simp
      · rw [lookupCache_cons_ne t (env.bookmarkKeyword t) st.cache u het] at hu
        exact hc u b hu
    · intro u hu
      exact hp u (List.mem_of_mem_erase hu)
  | prewarm t st h =>
    refine ⟨?_, hp⟩
    intro u b hu
    by_cases het : t = u
    · subst het
      rw [lookupCache_cons_self] at hu
      injection hu with hb
      simp [← hb, h]
    · rw [lookupCache_cons_ne t true st.cache u het] at hu
      exact hc u b hu

lemma kwInv_reach (env : Env) (st : KwState) (h : KwReach env st) :
    KwInv env st := by
  induction h with
  | refl => exact kwInv_init env
  | tail _ hstep ih => exact kwInv_step env _ _ ih hstep

lemma kwStep_preserves_cache (env : Env) (st st2 : KwState) (t : String)
    (v : Bool) (hinv : KwInv env st) (hstep : KwStep env st st2)
    (hv : lookupCache st.cache t = some v) :
    lookupCache st2.cache t = some v := by
  obtain ⟨hc, hp⟩ := hinv
  cases hstep with
  | call u st =>
    unfold isKeyword
    cases hl : lookupCache st.cache u with
    | some b => exact hv
    | none =>
      by_cases ha : env.engineAlias u
      · simp only [hl, ha, if_pos]
        by_cases het : u = t
        · subst het
          rw [hl] at hv
          exact absurd hv (by simp)
        · rw [lookupCache_cons_ne u true st.cache t het]
          exact hv
      · simp only [hl, ha, Bool.false_eq_true, if_false]
        exact hv
  | resolve u st h =>
    by_cases het : u = t
    · subst het
      rw [lookupCache_cons_self]
      have hval := hc u v hv
      rw [hp u h] at hval
      simp only [Bool.false_or] at hval
      rw [← hval]
    · rw [lookupCache_cons_ne u (env.bookmarkKeyword u) st.cache t het]
      exact hv
  | prewarm u st h =>
    by_cases het : u = t
    · subst het
      rw [lookupCache_cons_self]
      have hval := hc u v hv
      rw [h] at hval
      simp only [Bool.or_true] at hval
      rw [← hval]
    · rw [lookupCache_cons_ne u true st.cache t het]
      exact hv

/-- Oracle environment in which no token is an engine alias or bookmark
keyword and nothing parses as a URI or domain. -/
def envNone : Env :=
  ⟨fun _ => false, fun _ => false, fun _ => false, fun _ => false, 2⟩

/-- A field whose whole value "cats" was typed, caret at the end. -/
def catsField : Field := ⟨"cats", 4, 4⟩

lemma isKeyword_false_of (env : Env) (kst : KwState) (t : String)
    (h3 : env.engineAlias t = false)
    (h4 : lookupCache kst.cache t ≠ some true) :
    (isKeyword env kst t).1 = false := by
  unfold isKeyword
  cases hl : lookupCache kst.cache t with
  | none => simp [hl, h3]
  | some b =>
    cases b with
    | false => simp [hl]
    | true => exact absurd hl h4

lemma willHandle_false_of (env : Env) (kst : KwState) (s : String)
    (hsp : hasSpace s = false)
    (h1 : env.newURIOk s = false) (h2 : env.baseDomainOk s = false)
    (h3 : env.engineAlias (firstToken s) = false)
    (h4 : lookupCache kst.cache (firstToken s) ≠ some true) :
    (willHandle env kst s).1 = false := by
  unfold willHandle
  simp only [hsp, h1, h2, Bool.false_eq_true, if_false, if_pos rfl]
  exact isKeyword_false_of env kst (firstToken s) h3 h4

lemma append_noop_selected (env : Env) (f : Field) (mc : Nat) (st : CtrlSt)
    (h : targetIndex ≤ st.selectedIndex) :
    appendCurrentResult env f mc st = (st, false) := by
  simp [appendCurrentResult, h]

lemma runAppends_fixed (env : Env) (f : Field) :
    ∀ (mcs : List Nat) (st : CtrlSt), targetIndex ≤ st.selectedIndex →
      runAppends env f mcs st = st
  | [], _, _ => rfl
  | mc :: rest, st, h => by
    rw [runAppends, append_noop_selected env f mc st h]
    exact runAppends_fixed env f rest st h

lemma takeWhileNot_eq_self :
    ∀ l : List Char, l.any isWsChar = false →
      l.takeWhile (fun c => !(isWsChar c)) = l
  | [], _ => rfl
  | c :: cs, h => by
    simp only [List.any_cons, Bool.or_eq_false_iff] at h
    simp [List.takeWhile_cons, h.1, takeWhileNot_eq_self cs h.2]

lemma firstToken_of_no_ws (s : String) (h : hasWs s = false) :
    firstToken s = s := by
  cases s with
  | mk data =>
    unfold firstToken
    unfold hasWs at h
    exact congrArg String.mk (takeWhileNot_eq_self data h)

lemma length_pos_of_ne_empty (s : String) (h : s ≠ "") : 0 < s.length := by
  cases s with
  | mk data =>
    cases data with
    | nil => exact absurd rfl h
    | cons c cs => exact Nat.succ_pos cs.length

/-- C4 counterexample: with value "abcd" and a collapsed caret at offset
2 (selectionStart = selectionEnd = 2, not at the end), the claim
predicts the trimmed text before the caret, "ab", but getTyped returns
the full value "abcd". -/
theorem claim_c4_counterexample :
    getTyped ⟨"abcd", 2, 2⟩ = "abcd" ∧ getTyped ⟨"abcd", 2, 2⟩ ≠ "ab" := by
  decide

/-- C4 amended: getTyped equals the text before selectionStart when
selectionEnd equals the length of the field value, and the full field
value otherwise, trimmed of whitespace in both cases. -/
theorem claim_c4 (v : String) (s e : Nat) :
    (e = v.length → getTyped ⟨v, s, e⟩ = jsTrim (jsSlice0 s v)) ∧
    (e ≠ v.length → getTyped ⟨v, s, e⟩ = jsTrim v) := by
  constructor
  · intro h
    simp [getTyped, h]
  · intro h
    simp [getTyped, h]

/-- C4 witness: the amended statement evaluated at selectionEnd at the
end (inline-completion case) and at selectionEnd away from the end. -/
theorem claim_c4_witness :
    getTyped ⟨"cats", 2, 4⟩ = jsTrim (jsSlice0 2 "cats") ∧
    getTyped ⟨"abcd", 2, 2⟩ = jsTrim "abcd" :=
  ⟨(claim_c4 "cats" 2 4).1 rfl, (claim_c4 "abcd" 2 2).2 (by decide)⟩

/-- C7: for non-empty entered text the scheduled bounded-wait delay is
MAX_WAIT_FOR_RESULTS divided by the text length; length 5 gives 70 ms,
length 7 gives 50 ms, and the delay is non-increasing in the length. -/
theorem claim_c7 (s t : String) (hs : s ≠ "") (hlen : s.length ≤ t.length) :
    enterWaitDelay s = ((MAX_WAIT_FOR_RESULTS / (s.length : ℚ) : ℚ) : WithTop ℚ) ∧
    enterWaitDelay "abcde" = ((70 : ℚ) : WithTop ℚ) ∧
    enterWaitDelay "abcdefg" = ((50 : ℚ) : WithTop ℚ) ∧
    enterWaitDelay t ≤ enterWaitDelay s := by
  have hs0 : 0 < s.length := length_pos_of_ne_empty s hs
  have ht0 : 0 < t.length := lt_of_lt_of_le hs0 hlen
  have hs1 : s.length ≠ 0 := Nat.pos_iff_ne_zero.mp hs0
  have ht1 : t.length ≠ 0 := Nat.pos_iff_ne_zero.mp ht0
  refine ⟨?_, ?_, ?_, ?_⟩
  · simp [enterWaitDelay, jsDiv, hs1]
  · have h5 : ("abcde" : String).length = 5 := rfl
    simp [enterWaitDelay, jsDiv, MAX_WAIT_FOR_RESULTS, h5]
    norm_num
  · have h7 : ("abcdefg" : String).length = 7 := rfl
    simp [enterWaitDelay, jsDiv, MAX_WAIT_FOR_RESULTS, h7]
    norm_num
  · simp only [enterWaitDelay, jsDiv, hs1, ht1, Bool.false_eq_true, if_false,
      if_neg, WithTop.coe_le_coe]
    apply div_le_div_of_nonneg_left
    · simp [MAX_WAIT_FOR_RESULTS]
    · exact_mod_cast hs0
    · exact_mod_cast hlen

/-- C7 witness: the statement evaluated at the length-5 and length-7
examples from the spec. -/
theorem claim_c7_witness :
    enterWaitDelay "abcdefg" ≤ enterWaitDelay "abcde" :=
  (claim_c7 "abcde" "abcdefg" (by decide) (by decide)).2.2.2

/-- C10: the snapshot starts as empty strings, so a vertical-movement
deferred check firing before any auto-selection, with nothing selected
and the popup open, sets the field value to "" and the caret to 0. -/
theorem claim_c10 (f : Field) :
    origSearchInit = "" ∧ origValueInit = "" ∧
    (verticalRestore (-1) true origSearchInit origValueInit f).value = "" ∧
    (verticalRestore (-1) true origSearchInit origValueInit f).selStart = 0 := by
  refine ⟨rfl, rfl, ?_, ?_⟩ <;>
    simp [verticalRestore, origSearchInit, origValueInit]

/-- C8: with snapshot origSearch = "ca", origValue = "cats", each
horizontal-navigation key clears the selection to -1 and schedules no
deferred action, a vertical-navigation key schedules the restore check,
and that check, finding index -1 with the popup open, restores the
value "cats" and puts the caret at offset 2. -/
theorem claim_c8 (env : Env) (f g : Field) (si : Int) (mc : Nat) (ss : Int)
    (sn : Bool) (kst : KwState) :
    (keydown env f si mc ss sn kst .left ⟨false, false, false⟩).selectedIndex = -1 ∧
    (keydown env f si mc ss sn kst .left ⟨false, false, false⟩).deferred = .none ∧
    (keydown env f si mc ss sn kst .right ⟨false, false, false⟩).selectedIndex = -1 ∧
    (keydown env f si mc ss sn kst .right ⟨false, false, false⟩).deferred = .none ∧
    (keydown env f si mc ss sn kst .home ⟨false, false, false⟩).selectedIndex = -1 ∧
    (keydown env f si mc ss sn kst .home ⟨false, false, false⟩).deferred = .none ∧
    (keydown env f (-1) mc ss sn kst .down ⟨false, false, false⟩).deferred = .restoreCheck ∧
    (verticalRestore (-1) true "ca" "cats" g).value = "cats" ∧
    (verticalRestore (-1) true "ca" "cats" g).selStart = 2 := by
  have hca : ("ca" : String).length = 2 := rfl
  refine ⟨rfl, rfl, rfl, rfl, rfl, rfl, rfl, ?_, ?_⟩ <;>
    simp [verticalRestore, hca]

/-- C2: the bounded Enter-wait callback forces the default commit
exactly when the trimmed typed text at fire time equals the captured
enteredSearch and the match count is still zero; once at least one
result has arrived the callback is a no-op. -/
theorem claim_c2 (es : String) (f : Field) (mc : Nat) (sn : Bool) :
    ((enterDeferredCheck es f mc sn).1 = true ↔ (es = getTyped f ∧ mc = 0)) ∧
    (1 ≤ mc → (enterDeferredCheck es f mc sn).1 = false ∧
      (enterDeferredCheck es f mc sn).2 = sn) := by
  constructor
  · constructor
    · intro h
      by_contra hc
      simp [enterDeferredCheck, hc] at h
    · intro h
      simp [enterDeferredCheck, h]
  · intro hmc
    have hne : ¬ (es = getTyped f ∧ mc = 0) := by
      rintro ⟨-, h0⟩
      omega
    simp [enterDeferredCheck, hne]

/-- C2 witness: the callback fires when text is unchanged and no results
exist, and is a no-op once a result has arrived. -/
theorem claim_c2_witness :
    ((enterDeferredCheck "cats" catsField 0 true).1 = true ↔
      ("cats" = getTyped catsField ∧ 0 = 0)) ∧
    ((enterDeferredCheck "cats" catsField 3 true).1 = false ∧
      (enterDeferredCheck "cats" catsField 3 true).2 = true) :=
  ⟨(claim_c2 "cats" catsField 0 true).1,
   (claim_c2 "cats" catsField 3 true).2 (by decide)⟩

/-- C1: with typed text "cats" classified as neither URI, domain nor
known shortcut, the first results-appended event that sees one entry
moves the selection from -1 to targetIndex, every following
results-appended event leaves it at targetIndex, and any event that
finds the selection already at or past targetIndex, or the list empty,
leaves the state unchanged. -/
theorem claim_c1 (env : Env) (kst : KwState) (f : Field) (os ov : String)
    (sn : Bool) (mcs : List Nat)
    (h1 : env.newURIOk "cats" = false) (h2 : env.baseDomainOk "cats" = false)
    (h3 : env.engineAlias "cats" = false)
    (h4 : lookupCache kst.cache "cats" ≠ some true)
    (hf : getTyped f = "cats") :
    ((appendCurrentResult env f 1 ⟨-1, os, ov, sn, kst⟩).1.selectedIndex = targetIndex) ∧
    ((runAppends env f mcs
        (appendCurrentResult env f 1 ⟨-1, os, ov, sn, kst⟩).1).selectedIndex = targetIndex) ∧
    (∀ (mc : Nat) (st : CtrlSt), targetIndex ≤ st.selectedIndex →
      (appendCurrentResult env f mc st).1 = st) ∧
    (∀ st : CtrlSt, (appendCurrentResult env f 0 st).1 = st) := by
  have hft : firstToken "cats" = "cats" := by decide
  have hsp : hasSpace "cats" = false := by decide
  have hw : (willHandle env kst "cats").1 = false :=
    willHandle_false_of env kst "cats" hsp h1 h2
      (by rw [hft]; exact h3) (by rw [hft]; exact h4)
  have hno : ¬ (targetIndex ≤ (-1 : Int)) := by decide
  have hsel : (appendCurrentResult env f 1 ⟨-1, os, ov, sn, kst⟩).1.selectedIndex =
      targetIndex := by
    simp [appendCurrentResult, hno, hf, hw]
  refine ⟨hsel, ?_, ?_, ?_⟩
  · rw [runAppends_fixed env f mcs _ (le_of_eq hsel.symm)]
    exact hsel
  · intro mc st h
    rw [append_noop_selected env f mc st h]
  · intro st
    by_cases h : targetIndex ≤ st.selectedIndex
    · rw [append_noop_selected env f 0 st h]
    · simp [appendCurrentResult, h]

/-- C1 witness: list growing 0 to 1 with "cats" typed selects index 1,
and two further growth events leave it there. -/
theorem claim_c1_witness :
    ((appendCurrentResult envNone catsField 1 ⟨-1, "", "", false, kwInit⟩).1.selectedIndex =
      targetIndex) ∧
    ((runAppends envNone catsField [2, 3]
        (appendCurrentResult envNone catsField 1
          ⟨-1, "", "", false, kwInit⟩).1).selectedIndex = targetIndex) := by
  have h := claim_c1 envNone kwInit catsField "" "" false [2, 3]
    rfl rfl rfl (by decide) (by decide)
  exact ⟨h.1, h.2.1⟩

/-- C3: willHandle follows the claimed decision order on every input
whose space content matches its whitespace content, and satisfies the
four classification examples under the corresponding oracle facts. -/
theorem claim_c3 (env : Env) (kst : KwState) :
    (∀ s : String, hasSpace s = hasWs s →
      (willHandle env kst s).1 =
        (if hasWs s = true then (isKeyword env kst (firstToken s)).1
         else (env.newURIOk s || env.baseDomainOk s || (isKeyword env kst s).1))) ∧
    (env.newURIOk "http://example.com" = true →
      (willHandle env kst "http://example.com").1 = true) ∧
    (env.baseDomainOk "example.com/page" = true →
      (willHandle env kst "example.com/page").1 = true) ∧
    (env.newURIOk "weather" = false → env.baseDomainOk "weather" = false →
      (willHandle env kst "weather").1 = (isKeyword env kst "weather").1) ∧
    ((isKeyword env kst "foo").1 = false →
      (willHandle env kst "foo bar").1 = false) := by
  refine ⟨?_, ?_, ?_, ?_, ?_⟩
  · intro s hsw
    by_cases hws : hasWs s = true
    · have hsp : hasSpace s = true := hsw.trans hws
      simp [willHandle, hsp, hws]
    · have hws2 : hasWs s = false := Bool.eq_false_iff.mpr hws
      have hsp : hasSpace s = false := hsw.trans hws2
      have hft := firstToken_of_no_ws s hws2
      by_cases hu : env.newURIOk s <;> by_cases hd : env.baseDomainOk s <;>
        simp [willHandle, hsp, hws2, hu, hd, hft]
  · intro h
    have hsp : hasSpace "http://example.com" = false := by decide
    simp [willHandle, hsp, h]
  · intro h
    have hsp : hasSpace "example.com/page" = false := by decide
    by_cases hu : env.newURIOk "example.com/page" <;>
      simp [willHandle, hsp, hu, h]
  · intro h1 h2
    have hsp : hasSpace "weather" = false := by decide
    have hft : firstToken "weather" = "weather" := by decide
    simp [willHandle, hsp, h1, h2, hft]
  · intro h
    have hsp : hasSpace "foo bar" = true := by decide
    have hft : firstToken "foo bar" = "foo" := by decide
    simp [willHandle, hsp, hft, h]

/-- Oracle environment for the classification examples: exactly
"http://example.com" parses as a URI and exactly "example.com/page"
yields a base domain; no shortcuts exist. -/
def envC3 : Env :=
  ⟨fun _ => false, fun _ => false,
   fun s => s == "http://example.com", fun s => s == "example.com/page", 2⟩

/-- C3 witness: the classification examples evaluated in envC3. -/
theorem claim_c3_witness :
    (willHandle envC3 kwInit "http://example.com").1 = true ∧
    (willHandle envC3 kwInit "example.com/page").1 = true ∧
    (willHandle envC3 kwInit "weather").1 = (isKeyword envC3 kwInit "weather").1 ∧
    (willHandle envC3 kwInit "foo bar").1 = false := by
  have h := claim_c3 envC3 kwInit
  exact ⟨h.2.1 (by decide), h.2.2.1 (by decide),
    h.2.2.2.1 (by decide) (by decide), h.2.2.2.2 (by decide)⟩

/-- C9: Enter pressed with zero results, search still in progress and
empty trimmed typed text (not handled by the host) suppresses the
default commit, sets selectNext, and schedules the bounded wait with an
infinite delay (MAX_WAIT_FOR_RESULTS divided by zero), which is not
equal to any finite delay. -/
theorem claim_c9 (env : Env) (f : Field) (si : Int) (ss : Int) (sn : Bool)
    (kst : KwState)
    (hf : getTyped f = "")
    (hss : ss ≤ env.statusSearching)
    (hw : (willHandle env kst "").1 = false) :
    (keydown env f si 0 ss sn kst .enter ⟨false, false, false⟩).preventDefault = true ∧
    (keydown env f si 0 ss sn kst .enter ⟨false, false, false⟩).selectNext = true ∧
    (keydown env f si 0 ss sn kst .enter ⟨false, false, false⟩).deferred =
      .enterTimeout "" ⊤ ∧
    (∀ q : ℚ, (keydown env f si 0 ss sn kst .enter ⟨false, false, false⟩).deferred ≠
      .enterTimeout "" ((q : ℚ) : WithTop ℚ)) := by
  have hkey : keydown env f si 0 ss sn kst .enter ⟨false, false, false⟩ =
      ⟨si, true, (willHandle env kst "").2, true,
       .enterTimeout "" (enterWaitDelay ""), false⟩ := by
    simp [keydown, hf, hss, hw]
  have htop : enterWaitDelay "" = (⊤ : WithTop ℚ) := rfl
  refine ⟨by rw [hkey], by rw [hkey], by rw [hkey, htop], ?_⟩
  intro q hq
  rw [hkey] at hq
  simp only at hq
  injection hq with h1 h2
  rw [htop] at h2
  exact WithTop.top_ne_coe h2

/-- C9 witness: concrete empty-input Enter press with no results and a
searching status. -/
theorem claim_c9_witness :
    (keydown envNone ⟨"", 0, 0⟩ (-1) 0 1 false kwInit .enter
      ⟨false, false, false⟩).preventDefault = true ∧
    (keydown envNone ⟨"", 0, 0⟩ (-1) 0 1 false kwInit .enter
      ⟨false, false, false⟩).deferred = .enterTimeout "" ⊤ := by
  have h := claim_c9 envNone ⟨"", 0, 0⟩ (-1) 1 false kwInit
    (by decide) (by decide) (by decide)
  exact ⟨h.1, h.2.2.1⟩

/-- C5 counterexample: two isKeyword calls for "foo" with no resolution
in between leave two outstanding backend fetches for "foo" — the code
keeps no Pending marker, so the second call queries the backend again. -/
theorem claim_c5_counterexample :
    ((isKeyword envNone ((isKeyword envNone kwInit "foo").2) "foo").2).pending.count
      "foo" = 2 ∧
    ¬ (((isKeyword envNone ((isKeyword envNone kwInit "foo").2) "foo").2).pending.count
      "foo" ≤ 1) := by
  decide

/-- C5 amended: duplicate backend lookups for a token are suppressed
only once the cache holds a value for it — a call finding a cached value
changes nothing, while a call finding no cached value and no engine
alias issues another backend lookup even if one is already outstanding. -/
theorem claim_c5 (env : Env) (st : KwState) (t : String) (b : Bool) :
    (lookupCache st.cache t = some b → (isKeyword env st t).2 = st) ∧
    (lookupCache st.cache t = none → env.engineAlias t = false →
      ((isKeyword env st t).2).pending = t :: st.pending) := by
  constructor
  · intro h
    simp [isKeyword, h]
  · intro h ha
    simp [isKeyword, h, ha]

/-- C5 witness: a call on a cached token with a fetch still outstanding
issues nothing, and a call on an uncached token adds a pending fetch. -/
theorem claim_c5_witness :
    (isKeyword envNone ⟨[("foo", false)], ["foo"]⟩ "foo").2 =
      ⟨[("foo", false)], ["foo"]⟩ ∧
    ((isKeyword envNone kwInit "foo").2).pending = "foo" :: kwInit.pending :=
  ⟨(claim_c5 envNone ⟨[("foo", false)], ["foo"]⟩ "foo" false).1 (by decide),
   (claim_c5 envNone kwInit "foo" false).2 (by decide) (by decide)⟩

/-- C6: in any reachable classifier state, once the cache holds a value
for a token, any further sequence of isKeyword calls, fetch resolutions
and pre-fetch rows leaves that cached value unchanged. -/
theorem claim_c6 (env : Env) (st st2 : KwState) (t : String) (v : Bool)
    (hreach : KwReach env st)
    (hsteps : Relation.ReflTransGen (KwStep env) st st2)
    (hv : lookupCache st.cache t = some v) :
    lookupCache st2.cache t = some v := by
  induction hsteps with
  | refl => exact hv
  | tail hab hbc ih =>
    exact kwStep_preserves_cache env _ _ t v
      (kwInv_reach env _ (hreach.trans hab)) hbc ih

/-- Oracle environment in which exactly the token "a" is a search-engine
alias. -/
def envAliasA : Env :=
  ⟨fun s => s == "a", fun _ => false, fun _ => false, fun _ => false, 2⟩

/-- C6 witness: "a" resolves to Known via the alias registry, and a
later isKeyword call on a different token leaves that value intact. -/
theorem claim_c6_witness :
    lookupCache ((isKeyword envAliasA ((isKeyword envAliasA kwInit "a").2)
      "b").2).cache "a" = some true :=
  claim_c6 envAliasA ((isKeyword envAliasA kwInit "a").2) _ "a" true
    (Relation.ReflTransGen.single (KwStep.call "a" kwInit))
    (Relation.ReflTransGen.single
      (KwStep.call "b" ((isKeyword envAliasA kwInit "a").2)))
    (by decide)

end EnterSelects
